import Mathlib

/-!
Verification of the AgentForge backend's static-analysis-and-scoring engine
(`src/main.py`, endpoint `POST /api/analyze`), shallowly embedded in Lean.

The embedding follows the Python source:
* `splitLines` models Python's `str.splitlines()` (all line boundaries
  recognised by CPython, `\r\n` treated as one boundary, no trailing empty
  line).
* `SECURITY_RULES`, `Finding`, `AgentStep` mirror the data of `main.py`.
* `scanFindings` models the nested `for i, line in enumerate(...)` /
  `for rule in SECURITY_RULES` loop.
* `score` models `max(0, 100 - min(100, raw_score))` over `int`.
* `analyze` models the endpoint body; the persistence collaborator
  `create_document` lives in `database.py`, which is not among the analyzed
  sources, and is modelled from the spec (see its doc comment).
-/

namespace AgentForge

/-- Severity levels of the `Finding` pydantic model
(`Literal["low", "medium", "high", "critical"]`). -/
inductive Severity where
  | low
  | medium
  | high
  | critical
deriving DecidableEq

/-- The `Finding` pydantic model of `main.py`: `line` is `Optional[int]`. -/
structure Finding where
  rule_id : String
  title : String
  severity : Severity
  line : Option Nat
  description : String
  recommendation : String
deriving DecidableEq

/-- The `AgentStep` pydantic model of `main.py`. -/
structure AgentStep where
  agent : String
  action : String
  output : String
  elapsed_ms : Nat
deriving DecidableEq, Inhabited

/-- A security rule of the static `SECURITY_RULES` table. The Python dict key
`"match"` is rendered as `pat` (`match` is a Lean keyword). -/
structure Rule where
  id : String
  language : String
  pat : String
  title : String
  severity : Severity
  description : String
  recommendation : String
deriving DecidableEq

/-- The static rule table `SECURITY_RULES` of `main.py`. -/
def SECURITY_RULES : List Rule :=
  [ { id := "AF-PY-001"
    , language := "python"
    , pat := "eval("
    , title := "Use of eval()"
    , severity := .high
    , description := "The built-in eval() executes arbitrary code and can be exploited."
    , recommendation := "Avoid eval(); use safe parsing or literal_eval for trusted input." }
  , { id := "AF-SQL-001"
    , language := "any"
    , pat := "SELECT * FROM"
    , title := "Potential SQL injection (raw query)"
    , severity := .critical
    , description := "Raw SQL concatenation can lead to SQL injection."
    , recommendation := "Use parameterized queries or ORM query builders." }
  , { id := "AF-JS-001"
    , language := "javascript"
    , pat := "innerHTML ="
    , title := "Unsafe DOM insertion"
    , severity := .high
    , description := "Assigning to innerHTML can enable XSS if input is untrusted."
    , recommendation := "Use textContent or sanitize HTML before insertion." } ]

/-- ASCII lower-casing of one character, as `str.lower()` acts on the ASCII
language labels used by the endpoint. -/
def lowerChar (c : Char) : Char :=
  if 'A' ≤ c ∧ c ≤ 'Z' then Char.ofNat (c.toNat + 32) else c

/-- `str.lower()` on a language label. -/
def lowerStr (s : String) : String :=
  ⟨s.data.map lowerChar⟩

/-- The characters CPython's `str.splitlines()` treats as line boundaries. -/
def isLineBreakChar (c : Char) : Bool :=
  c = '\n' || c = '\r' || c.toNat = 0x0b || c.toNat = 0x0c ||
  c.toNat = 0x1c || c.toNat = 0x1d || c.toNat = 0x1e ||
  c.toNat = 0x85 || c.toNat = 0x2028 || c.toNat = 0x2029

/-- Worker for `splitLines`: `cur` holds the characters of the current line in
reverse. `\r\n` counts as a single boundary; a boundary at the very end of
the input does not open a trailing empty line (CPython semantics). -/
def splitLinesGo (cur : List Char) : List Char → List (List Char)
  | [] => [cur.reverse]
  | '\r' :: '\n' :: rest =>
      if rest.isEmpty then [cur.reverse] else cur.reverse :: splitLinesGo [] rest
  | c :: rest =>
      if isLineBreakChar c then
        if rest.isEmpty then [cur.reverse] else cur.reverse :: splitLinesGo [] rest
      else
        splitLinesGo (c :: cur) rest

/-- Python's `str.splitlines()`: the empty string yields no lines. -/
def splitLines (s : String) : List String :=
  match s.data with
  | [] => []
  | cs => (splitLinesGo [] cs).map fun l => ⟨l⟩

/-- Python's substring test `pat in hay` on code text (case-sensitive). -/
def listContainsSub (hay pat : List Char) : Bool :=
  pat.isPrefixOf hay ||
    match hay with
    | [] => false
    | _ :: t => listContainsSub t pat

/-- `pat in hay` on strings. -/
def containsSub (hay pat : String) : Bool :=
  listContainsSub hay.data pat.data

/-- The membership test of `main.py` line 140:
`rule["language"] in ("any", req.language.lower()) and rule["match"] in line`. -/
def ruleApplies (r : Rule) (language line : String) : Bool :=
  (r.language == "any" || r.language == lowerStr language) && containsSub line r.pat

/-- The `Finding(...)` constructed at `main.py` lines 141-148 for a rule
matching line number `i`. -/
def mkFinding (r : Rule) (i : Nat) : Finding :=
  { rule_id := r.id
  , title := r.title
  , severity := r.severity
  , line := some i
  , description := r.description
  , recommendation := r.recommendation }

/-- The inner `for rule in SECURITY_RULES` loop for line number `i`. -/
def scanRules (language : String) (i : Nat) (line : String) : List Rule → List Finding
  | [] => []
  | r :: rs =>
      (if ruleApplies r language line then [mkFinding r i] else []) ++
        scanRules language i line rs

/-- All findings of one line against the full rule table. -/
def scanLine (language : String) (i : Nat) (line : String) : List Finding :=
  scanRules language i line SECURITY_RULES

/-- The outer `for i, line in enumerate(code_lines, start=1)` loop, with `n`
the number of the next line. -/
def scanFrom (language : String) (n : Nat) : List String → List Finding
  | [] => []
  | line :: rest => scanLine language n line ++ scanFrom language (n + 1) rest

/-- The complete scan of `main.py` lines 138-148. -/
def scanFindings (code language : String) : List Finding :=
  scanFrom language 1 (splitLines code)

/-- The weight table `sev_weights` of `main.py` line 151. -/
def sevWeight : Severity → Int
  | .low => 1
  | .medium => 2
  | .high => 3
  | .critical => 5

/-- `sum(sev_weights[f.severity] for f in findings)`. -/
def weightSum (findings : List Finding) : Int :=
  (findings.map fun f => sevWeight f.severity).sum

/-- `raw_score = sum(...) * 10` (`main.py` line 152). -/
def rawScore (findings : List Finding) : Int :=
  weightSum findings * 10

/-- `score = max(0, 100 - min(100, raw_score))` (`main.py` line 153). -/
def score (findings : List Finding) : Int :=
  max 0 (100 - min 100 (rawScore findings))

/-- The three `AgentStep` records appended by the endpoint, in order: the scan
step, the scoring step (whose output renders the computed score), and the
remediation step branching on whether findings are empty. -/
def analyzeSteps (findings : List Finding) (s : Int) : List AgentStep :=
  [ { agent := "StaticAnalyzer", action := "Token scan"
    , output := "Scanning for insecure patterns", elapsed_ms := 42 }
  , { agent := "RiskScorer", action := "Compute score"
    , output := "Score=" ++ toString s, elapsed_ms := 15 }
  , if findings.isEmpty then
      { agent := "Remediator", action := "No issues"
      , output := "Clean bill of health", elapsed_ms := 8 }
    else
      { agent := "Remediator", action := "Suggest fixes"
      , output := toString findings.length ++ " suggestions ready", elapsed_ms := 18 } ]

/-- Modelled from the spec: the document-store collaborator `create_document`
is defined in `database.py`, which is not among the analyzed sources. Per the
spec (§6-§7) it is a fire-and-forget insert that the core treats as
potentially unavailable: a persistence failure is swallowed and an opaque
identifier (a locally generated placeholder when the store is unavailable) is
still returned, never an exception. Availability is modelled by a Boolean. -/
def create_document (available : Bool) (collection : String) : String :=
  if available then "stored:" ++ collection else "placeholder:" ++ collection

/-- The `AnalyzeResponse` pydantic model. -/
structure AnalyzeResponse where
  score : Int
  findings : List Finding
  steps : List AgentStep
  analysis_id : String
deriving DecidableEq

/-- The body of `POST /api/analyze` (`main.py` lines 129-173): scan, score,
narrate, persist, respond. `available` is the state of the persistence
collaborator (see `create_document`). -/
def analyze (available : Bool) (code language : String) : AnalyzeResponse :=
  let findings := scanFindings code language
  let s := score findings
  let steps := analyzeSteps findings s
  { score := s
  , findings := findings
  , steps := steps
  , analysis_id := create_document available "analysis" }

/-! ### Spec-side definitions (transcribed from the spec's words, for
refinement comparisons against the code-side definitions above) -/

/-- Spec-side weight table, from the spec's words:
weight table low 1, medium 2, high 3, critical 5. -/
def specSevWeight : Severity → Int
  | .low => 1
  | .medium => 2
  | .high => 3
  | .critical => 5

/-- Spec-side scorer, from the spec's words: raw = 10 × Σ(weight of each
finding's severity); score = clamp(100 − min(raw, 100), lower bound 0). -/
def specScore (findings : List Finding) : Int :=
  max 0 (100 - min (10 * (findings.map fun f => specSevWeight f.severity).sum) 100)

/-- Spec-side rule filter, from the spec's words: rule's language is "any" or
case-insensitively equals the declared language, and the line contains the
rule's exact substring pattern. -/
def specRuleApplies (r : Rule) (language line : String) : Bool :=
  (r.language == "any" || lowerStr r.language == lowerStr language) && containsSub line r.pat

/-- Spec-side inner loop over the rule table. -/
def specScanRules (language : String) (i : Nat) (line : String) : List Rule → List Finding
  | [] => []
  | r :: rs =>
      (if specRuleApplies r language line then [mkFinding r i] else []) ++
        specScanRules language i line rs

/-- Spec-side outer loop over 1-indexed lines. -/
def specScanFrom (language : String) (n : Nat) : List String → List Finding
  | [] => []
  | line :: rest =>
      specScanRules language n line SECURITY_RULES ++ specScanFrom language (n + 1) rest

/-- Spec-side scanner, from the spec's words: for each line (1-indexed), for
each rule in table order, emit a Finding when the rule applies. -/
def specScanFindings (code language : String) : List Finding :=
  specScanFrom language 1 (splitLines code)

/-- Position of a finding's rule in the rule table (`AF-PY-001` first,
`AF-SQL-001` second, `AF-JS-001` last). -/
def ruleIdx (f : Finding) : Nat :=
  if f.rule_id == "AF-PY-001" then 0 else if f.rule_id == "AF-SQL-001" then 1 else 2

/-- Position of a rule in the rule table, by its id. -/
def ruleIdxR (r : Rule) : Nat :=
  if r.id == "AF-PY-001" then 0 else if r.id == "AF-SQL-001" then 1 else 2

/-- Key encoding the claimed findings order: line-major, then rule-table
order within a line (every rule index is below 10, so the encoding is
faithful). -/
def sortKey (f : Finding) : Nat :=
  10 * f.line.getD 0 + ruleIdx f

/-! ### Scoring lemmas -/

theorem sevWeight_nonneg (s : Severity) : 0 ≤ sevWeight s := by
  cases s <;> decide

theorem sevWeight_eq_spec (s : Severity) : sevWeight s = specSevWeight s := by
  cases s <;> rfl

theorem weightSum_nonneg (findings : List Finding) : 0 ≤ weightSum findings := by
  unfold weightSum
  refine List.sum_nonneg ?_
  intro x hx
  obtain ⟨f, _, rfl⟩ := List.mem_map.mp hx
  exact sevWeight_nonneg f.severity

theorem weightSum_cons (f : Finding) (findings : List Finding) :
    weightSum (f :: findings) = sevWeight f.severity + weightSum findings := by
  simp [weightSum]

theorem score_eq_specScore (findings : List Finding) : score findings = specScore findings := by
  unfold score rawScore weightSum specScore
  have h : (findings.map fun f => sevWeight f.severity)
      = findings.map fun f => specSevWeight f.severity :=
    List.map_congr_left fun f _ => sevWeight_eq_spec f.severity
  rw [h]
  omega

theorem score_nonneg (findings : List Finding) : 0 ≤ score findings := by
  have := weightSum_nonneg findings
  unfold score rawScore
  omega

theorem score_le_100 (findings : List Finding) : score findings ≤ 100 := by
  have := weightSum_nonneg findings
  unfold score rawScore
  omega

/-! ### Scanner lemmas -/

theorem ruleApplies_eq_spec (r : Rule) (hr : r ∈ SECURITY_RULES) (language line : String) :
    ruleApplies r language line = specRuleApplies r language line := by
  simp only [SECURITY_RULES, List.mem_cons, List.not_mem_nil, or_false] at hr
  rcases hr with rfl | rfl | rfl
  · simp only [ruleApplies, specRuleApplies]
    rw [show lowerStr "python" = "python" from by decide]
  · simp only [ruleApplies, specRuleApplies]
    rw [show lowerStr "any" = "any" from by decide]
  · simp only [ruleApplies, specRuleApplies]
    rw [show lowerStr "javascript" = "javascript" from by decide]

theorem scanRules_eq_spec (language : String) (i : Nat) (line : String) (rs : List Rule)
    (h : ∀ r ∈ rs, ruleApplies r language line = specRuleApplies r language line) :
    scanRules language i line rs = specScanRules language i line rs := by
  induction rs with
  | nil => rfl
  | cons r rs ih =>
      simp only [scanRules, specScanRules]
      rw [h r (List.mem_cons_self r rs), ih fun r hr => h r (List.mem_cons_of_mem _ hr)]

theorem scanFrom_eq_spec (language : String) (n : Nat) (lines : List String) :
    scanFrom language n lines = specScanFrom language n lines := by
  induction lines generalizing n with
  | nil => rfl
  | cons line rest ih =>
      simp only [scanFrom, specScanFrom, scanLine]
      rw [scanRules_eq_spec language n line SECURITY_RULES
        (fun r hr => ruleApplies_eq_spec r hr language line), ih (n + 1)]

theorem scanFindings_eq_spec (code language : String) :
    scanFindings code language = specScanFindings code language :=
  scanFrom_eq_spec language 1 (splitLines code)

theorem mem_scanRules {language : String} {i : Nat} {line : String} {rs : List Rule}
    {f : Finding} (h : f ∈ scanRules language i line rs) :
    ∃ r ∈ rs, ruleApplies r language line = true ∧ f = mkFinding r i := by
  induction rs with
  | nil => simp [scanRules] at h
  | cons r rs ih =>
      simp only [scanRules, List.mem_append] at h
      rcases h with h | h
      · by_cases hra : ruleApplies r language line = true
        · rw [if_pos hra] at h
          simp only [List.mem_singleton] at h
          exact ⟨r, List.mem_cons_self r rs, hra, h⟩
        · rw [if_neg hra] at h
          simp at h
      · obtain ⟨r', hr', ha, hf⟩ := ih h
        exact ⟨r', List.mem_cons_of_mem _ hr', ha, hf⟩

theorem ruleIdxR_le_2 (r : Rule) : ruleIdxR r ≤ 2 := by
  unfold ruleIdxR
  split <;> [omega; split <;> omega]

theorem sortKey_mkFinding (r : Rule) (i : Nat) :
    sortKey (mkFinding r i) = 10 * i + ruleIdxR r := rfl

theorem mem_scanLine {language : String} {n : Nat} {line : String} {f : Finding}
    (h : f ∈ scanLine language n line) :
    ∃ r ∈ SECURITY_RULES, f = mkFinding r n := by
  obtain ⟨r, hr, _, hf⟩ := mem_scanRules h
  exact ⟨r, hr, hf⟩

theorem sortKey_bounds_scanLine {language : String} {n : Nat} {line : String} {f : Finding}
    (h : f ∈ scanLine language n line) :
    10 * n ≤ sortKey f ∧ sortKey f ≤ 10 * n + 2 := by
  obtain ⟨r, _, rfl⟩ := mem_scanLine h
  rw [sortKey_mkFinding]
  have := ruleIdxR_le_2 r
  omega

theorem sortKey_lb_scanFrom {language : String} {n : Nat} {lines : List String} {f : Finding}
    (h : f ∈ scanFrom language n lines) : 10 * n ≤ sortKey f := by
  induction lines generalizing n with
  | nil => simp [scanFrom] at h
  | cons line rest ih =>
      simp only [scanFrom, List.mem_append] at h
      rcases h with h | h
      · exact (sortKey_bounds_scanLine h).1
      · have := ih h
        omega

theorem scanRules_pairwise (language : String) (i : Nat) (line : String) (rs : List Rule)
    (h : rs.Pairwise fun a b => ruleIdxR a < ruleIdxR b) :
    ((scanRules language i line rs).map sortKey).Pairwise (· < ·) := by
  induction rs with
  | nil => simp [scanRules]
  | cons r rs ih =>
      rw [List.pairwise_cons] at h
      simp only [scanRules, List.map_append, List.pairwise_append]
      refine ⟨?_, ih h.2, ?_⟩
      · split <;> simp
      · intro x hx y hy
        simp only [List.mem_map] at hx hy
        obtain ⟨fx, hfx, rfl⟩ := hx
        obtain ⟨fy, hfy, rfl⟩ := hy
        have hfx' : fx = mkFinding r i := by
          by_cases hc : ruleApplies r language line = true
          · rw [if_pos hc] at hfx
            simpa using hfx
          · rw [if_neg hc] at hfx
            simp at hfx
        obtain ⟨r', hr', hfy'⟩ : ∃ r' ∈ rs, fy = mkFinding r' i := by
          obtain ⟨r', hr', _, hfy'⟩ := mem_scanRules hfy
          exact ⟨r', hr', hfy'⟩
        subst hfx' hfy'
        rw [sortKey_mkFinding, sortKey_mkFinding]
        have := h.1 r' hr'
        omega

theorem scanLine_pairwise (language : String) (n : Nat) (line : String) :
    ((scanLine language n line).map sortKey).Pairwise (· < ·) := by
  refine scanRules_pairwise language n line SECURITY_RULES ?_
  decide

theorem scanFrom_pairwise (language : String) (n : Nat) (lines : List String) :
    ((scanFrom language n lines).map sortKey).Pairwise (· < ·) := by
  induction lines generalizing n with
  | nil => simp [scanFrom]
  | cons line rest ih =>
      simp only [scanFrom, List.map_append, List.pairwise_append]
      refine ⟨scanLine_pairwise language n line, ih (n + 1), ?_⟩
      intro x hx y hy
      simp only [List.mem_map] at hx hy
      obtain ⟨fx, hfx, rfl⟩ := hx
      obtain ⟨fy, hfy, rfl⟩ := hy
      have h1 := (sortKey_bounds_scanLine hfx).2
      have h2 := sortKey_lb_scanFrom hfy
      omega

theorem line_mem_scanFrom {language : String} {n : Nat} {lines : List String} {f : Finding}
    (h : f ∈ scanFrom language n lines) :
    ∃ i, f.line = some i ∧ n ≤ i ∧ i < n + lines.length := by
  induction lines generalizing n with
  | nil => simp [scanFrom] at h
  | cons line rest ih =>
      simp only [scanFrom, List.mem_append] at h
      rcases h with h | h
      · obtain ⟨r, _, rfl⟩ := mem_scanLine h
        exact ⟨n, rfl, Nat.le_refl n, by simp⟩
      · obtain ⟨i, hi, hlb, hub⟩ := ih h
        refine ⟨i, hi, by omega, by simp at hub ⊢; omega⟩

/-! ### Substring lemmas -/

theorem isPrefixOf_trans {p q hay : List Char} (h1 : p.isPrefixOf q = true)
    (h2 : q.isPrefixOf hay = true) : p.isPrefixOf hay = true := by
  induction p generalizing q hay with
  | nil => simp [List.isPrefixOf]
  | cons a as ih =>
      cases q with
      | nil => simp [List.isPrefixOf] at h1
      | cons b bs =>
          cases hay with
          | nil => simp [List.isPrefixOf] at h2
          | cons c cs =>
              simp only [List.isPrefixOf, Bool.and_eq_true, beq_iff_eq] at h1 h2 ⊢
              obtain ⟨rfl, h1⟩ := h1
              obtain ⟨rfl, h2⟩ := h2
              exact ⟨rfl, ih h1 h2⟩

theorem listContainsSub_mono {hay p q : List Char} (hpq : p.isPrefixOf q = true)
    (h : listContainsSub hay q = true) : listContainsSub hay p = true := by
  induction hay with
  | nil =>
      rw [listContainsSub] at h ⊢
      simp only [Bool.or_eq_true] at h ⊢
      rcases h with h | h
      · exact Or.inl (isPrefixOf_trans hpq h)
      · cases h
  | cons c t ih =>
      rw [listContainsSub] at h ⊢
      simp only [Bool.or_eq_true] at h ⊢
      rcases h with h | h
      · exact Or.inl (isPrefixOf_trans hpq h)
      · exact Or.inr (ih h)

/-! ### Concrete findings named in the scenario claims -/

/-- The finding the `eval(` rule produces at line 1. -/
def evalInputFinding : Finding :=
  { rule_id := "AF-PY-001"
  , title := "Use of eval()"
  , severity := .high
  , line := some 1
  , description := "The built-in eval() executes arbitrary code and can be exploited."
  , recommendation := "Avoid eval(); use safe parsing or literal_eval for trusted input." }

/-- The finding the `SELECT * FROM` rule produces at line `i`. -/
def sqlFinding (i : Nat) : Finding :=
  { rule_id := "AF-SQL-001"
  , title := "Potential SQL injection (raw query)"
  , severity := .critical
  , line := some i
  , description := "Raw SQL concatenation can lead to SQL injection."
  , recommendation := "Use parameterized queries or ORM query builders." }

/-- A line that contains the SQL pattern, no applicable `eval(` match and no
applicable `innerHTML =` match yields exactly the SQL finding. -/
theorem scanLine_sql_only {language line : String}
    (hsql : containsSub line "SELECT * FROM" = true)
    (hpy : ("python" == lowerStr language) = true → containsSub line "eval(" = false)
    (hjs : ("javascript" == lowerStr language) = true → containsSub line "innerHTML =" = false)
    (n : Nat) :
    scanLine language n line = [sqlFinding n] := by
  have p1 : ¬("python" = lowerStr language ∧ containsSub line "eval(" = true) := by
    rintro ⟨he, hc⟩
    have hb : ("python" == lowerStr language) = true := beq_iff_eq.mpr he
    rw [hpy hb] at hc
    cases hc
  have p3 : ¬("javascript" = lowerStr language ∧ containsSub line "innerHTML =" = true) := by
    rintro ⟨he, hc⟩
    have hb : ("javascript" == lowerStr language) = true := beq_iff_eq.mpr he
    rw [hjs hb] at hc
    cases hc
  simp only [scanLine, SECURITY_RULES, scanRules, ruleApplies]
  simp [p1, p3, hsql, sqlFinding, mkFinding]

/-! ### Claim theorems -/

/-- Claim C1: for every input, the score computed by the analyze operation
equals max(0, 100 − min(100, 10 × sum of severity weights)) with the weight
table low 1, medium 2, high 3, critical 5 (stated as equality with the
spec-side scorer `specScore` over the response's findings); the score always
lies in [0, 100]; and an empty findings list yields score 100. -/
theorem analyze_score_formula (avail : Bool) (code language : String) :
    (analyze avail code language).score = specScore (analyze avail code language).findings ∧
    0 ≤ (analyze avail code language).score ∧
    (analyze avail code language).score ≤ 100 ∧
    ((analyze avail code language).findings = [] → (analyze avail code language).score = 100) := by
  refine ⟨score_eq_specScore _, score_nonneg _, score_le_100 _, ?_⟩
  intro h
  show score (scanFindings code language) = 100
  have he : scanFindings code language = [] := h
  rw [he]
  decide

/-- Witness for C1 at a concrete input: the empty snippet has an empty
findings list and scores 100. -/
theorem analyze_score_formula_witness : (analyze true "" "python").score = 100 :=
  (analyze_score_formula true "" "python").2.2.2 (by decide)

/-- Claim C2: for every input code string and declared language, the scanner
emits exactly the findings described by the spec (one per matching
(line, rule) pair, rule's language "any" or case-insensitively equal to the
declared language, line containing the rule's substring pattern — captured by
equality with the spec-side `specScanFindings`), and the findings list is
strictly sorted by the key 10·line + rule-table-index, i.e. ordered by
ascending 1-based line number then rule-table order within a line, with at
most one finding per (line, rule) pair. -/
theorem analyze_findings_spec (avail : Bool) (code language : String) :
    (analyze avail code language).findings = specScanFindings code language ∧
    (((analyze avail code language).findings).map sortKey).Pairwise (· < ·) :=
  ⟨scanFindings_eq_spec code language, scanFrom_pairwise language 1 (splitLines code)⟩

/-- Claim C3: the scoring function is monotonically non-increasing in the
findings multiset — inserting one additional finding of any severity at any
position never increases the score. -/
theorem score_monotone_add (fs1 fs2 : List Finding) (f : Finding) :
    score (fs1 ++ f :: fs2) ≤ score (fs1 ++ fs2) := by
  have h1 := sevWeight_nonneg f.severity
  unfold score rawScore weightSum
  simp only [List.map_append, List.sum_append, List.map_cons, List.sum_cons]
  omega

/-- Counterexample to claim C4 as stated: the findings of the snippet
`SELECT * FROM users` carry exactly 5 weight-points, yet the computed score
is 50, not 0. -/
theorem score_five_weight_counterexample :
    weightSum (analyze true "SELECT * FROM users" "python").findings = 5 ∧
    (analyze true "SELECT * FROM users" "python").score = 50 ∧
    (analyze true "SELECT * FROM users" "python").score ≠ 0 :=
  ⟨by decide, by decide, by decide⟩

/-- Claim C4 (amended): for every list of findings whose severity weights sum
to ten or more weight-points, the computed score is 0. -/
theorem score_zero_of_weight_ge_ten (findings : List Finding)
    (h : 10 ≤ weightSum findings) : score findings = 0 := by
  unfold score rawScore
  omega

/-- Witness for amended C4 at a concrete input: two lines with an `eval(`
match and a SQL match each carry 16 weight-points and score 0. -/
theorem score_zero_of_weight_ge_ten_witness :
    score (scanFindings "eval(SELECT * FROM users)\neval(SELECT * FROM users)" "python") = 0 :=
  score_zero_of_weight_ge_ten _ (by decide)

/-- Claim C5: if the persistence collaborator fails during POST /api/analyze
(`available = false` in the spec-modelled `create_document`), the failure is
swallowed and the endpoint still returns the computed score, findings and
steps. -/
theorem analyze_persistence_swallowed (code language : String) :
    (analyze false code language).score = score (scanFindings code language) ∧
    (analyze false code language).findings = scanFindings code language ∧
    (analyze false code language).steps
      = analyzeSteps (scanFindings code language) (score (scanFindings code language)) :=
  ⟨rfl, rfl, rfl⟩

/-- Claim C6: for code `x = eval(input())` with language `python`, analyze
returns exactly one finding (rule `AF-PY-001`, severity high, line 1 — the
fields of `evalInputFinding`), a score of 70, and 3 steps whose last output
is `1 suggestions ready`. -/
theorem analyze_eval_input_scenario (avail : Bool) :
    (analyze avail "x = eval(input())" "python").findings = [evalInputFinding] ∧
    (analyze avail "x = eval(input())" "python").score = 70 ∧
    (analyze avail "x = eval(input())" "python").steps.length = 3 ∧
    ((analyze avail "x = eval(input())" "python").steps.getD 2 default).output
      = "1 suggestions ready" := by
  cases avail <;> exact ⟨by decide, by decide, by decide, by decide⟩

/-- Claim C7: for the empty input code string and any declared language,
analyze returns an empty findings list, a score of 100, and a third step
whose output is `Clean bill of health`. -/
theorem analyze_empty_code_scenario (avail : Bool) (language : String) :
    (analyze avail "" language).findings = [] ∧
    (analyze avail "" language).score = 100 ∧
    ((analyze avail "" language).steps.getD 2 default).output = "Clean bill of health" := by
  have hf : scanFindings "" language = [] := rfl
  refine ⟨hf, ?_, ?_⟩
  · show score (scanFindings "" language) = 100
    rw [hf]
    decide
  · show ((analyzeSteps (scanFindings "" language)
        (score (scanFindings "" language))).getD 2 default).output = _
    rw [hf]
    decide

/-- Counterexample to claim C8 as stated: the single-line code
`eval(SELECT * FROM users)` contains `SELECT * FROM users`, yet with declared
language `python` analyze returns two findings (the `eval(` rule also fires)
and a score of 20, not exactly one finding with score 50. -/
theorem analyze_sql_counterexample :
    containsSub "eval(SELECT * FROM users)" "SELECT * FROM users" = true ∧
    splitLines "eval(SELECT * FROM users)" = ["eval(SELECT * FROM users)"] ∧
    (analyze true "eval(SELECT * FROM users)" "python").findings.length = 2 ∧
    (analyze true "eval(SELECT * FROM users)" "python").score = 20 :=
  ⟨by decide, by decide, by decide, by decide⟩

/-- Claim C8 (amended): for any single-line input code containing
`SELECT * FROM users` and any declared language, provided no other rule
applicable to that language matches the line (no `eval(` when the lowercased
language is `python`, no `innerHTML =` when it is `javascript`), analyze
returns exactly one finding with rule_id `AF-SQL-001` and severity critical
(the fields of `sqlFinding 1`), and a score of 50. -/
theorem analyze_sql_single_line (avail : Bool) (language code : String)
    (hline : splitLines code = [code])
    (hsql : containsSub code "SELECT * FROM users" = true)
    (hpy : ("python" == lowerStr language) = true → containsSub code "eval(" = false)
    (hjs : ("javascript" == lowerStr language) = true → containsSub code "innerHTML =" = false) :
    (analyze avail code language).findings = [sqlFinding 1] ∧
    (analyze avail code language).score = 50 := by
  have hsub : containsSub code "SELECT * FROM" = true :=
    listContainsSub_mono (p := "SELECT * FROM".data) (q := "SELECT * FROM users".data)
      (by decide) hsql
  have hf : scanFindings code language = [sqlFinding 1] := by
    unfold scanFindings
    rw [hline]
    show scanLine language 1 code ++ scanFrom language 2 [] = _
    rw [scanLine_sql_only hsub hpy hjs 1]
    rfl
  refine ⟨hf, ?_⟩
  show score (scanFindings code language) = 50
  rw [hf]
  decide

/-- Witness for amended C8 at a concrete input: `SELECT * FROM users` with
declared language `go`. -/
theorem analyze_sql_single_line_witness :
    (analyze true "SELECT * FROM users" "go").findings = [sqlFinding 1] ∧
    (analyze true "SELECT * FROM users" "go").score = 50 :=
  analyze_sql_single_line true "go" "SELECT * FROM users"
    (by decide) (by decide) (by decide) (by decide)

/-- Claim C9: every finding produced by analyze has its `line` field set to a
concrete integer i with 1 ≤ i ≤ the number of lines of the submitted code;
the field is never `none` in analyze output. -/
theorem analyze_finding_line_bounds (avail : Bool) (code language : String) (f : Finding)
    (h : f ∈ (analyze avail code language).findings) :
    ∃ i, f.line = some i ∧ 1 ≤ i ∧ i ≤ (splitLines code).length := by
  have h' : f ∈ scanFrom language 1 (splitLines code) := h
  obtain ⟨i, hi, hlb, hub⟩ := line_mem_scanFrom h'
  exact ⟨i, hi, hlb, by omega⟩

/-- Witness for C9 at a concrete input: the `eval(` finding of a one-line
snippet sits on line 1 of 1. -/
theorem analyze_finding_line_bounds_witness :
    ∃ i, evalInputFinding.line = some i ∧ 1 ≤ i ∧
      i ≤ (splitLines "x = eval(input())").length :=
  analyze_finding_line_bounds true "x = eval(input())" "python" evalInputFinding (by decide)

/-- Claim C10: the score returned by analyze is always an exact multiple of
10 lying in [0, 100], hence in the set 0, 10, ..., 100. -/
theorem analyze_score_multiple_of_ten (avail : Bool) (code language : String) :
    (analyze avail code language).score % 10 = 0 ∧
    0 ≤ (analyze avail code language).score ∧
    (analyze avail code language).score ≤ 100 := by
  refine ⟨?_, score_nonneg _, score_le_100 _⟩
  show score (scanFindings code language) % 10 = 0
  have := weightSum_nonneg (scanFindings code language)
  unfold score rawScore
  omega

end AgentForge
